import Mathlib

/-!
Verification development for `scripts/lrc_build.py`, the build-and-release
automation script of the lrc CLI tool.

Strings of the Python script are modelled as `List Char`; Python's `int`
conversion, `str.split`, `str.strip`, `str.startswith` and truthiness are
translated below (ASCII fragment, which covers every literal occurring in
the script).  Versions are triples of `Int`, matching Python's unbounded
integers.  Filesystem and network effects (git, the Go compiler, the B2
REST backend) are external collaborators; their answers are inputs of the
modelled functions, and the commands `cmd_build` / `cmd_bump` are modelled
as explicit state transformers over a `World` record.
-/

namespace LrcBuild

/-- ASCII whitespace as recognised by Python's `str.strip` and `int`. -/
def pyIsSpace (c : Char) : Bool :=
  c = ' ' || c = '\t' || c = '\n' || c = '\r' || c = '\x0b' || c = '\x0c'

/-- Python `str.strip()`: remove whitespace from both ends. -/
def stripBoth (l : List Char) : List Char :=
  ((l.dropWhile pyIsSpace).reverse.dropWhile pyIsSpace).reverse

/-- Python `str.split(sep)` for a one-character separator: splitting the
empty string yields `[""]`, and every occurrence of the separator splits. -/
def pySplit (sep : Char) : List Char → List (List Char)
  | [] => [[]]
  | c :: rest =>
    if c = sep then [] :: pySplit sep rest
    else
      match pySplit sep rest with
      | [] => [[c]]
      | h :: t => (c :: h) :: t

/-- Python's `pat in s` substring test. -/
def containsSub (pat : List Char) : List Char → Bool
  | [] => pat.isEmpty
  | c :: rest => pat.isPrefixOf (c :: rest) || containsSub pat rest

/-- Python `str.lower()` on the ASCII fragment. -/
def pyLower (l : List Char) : List Char := l.map Char.toLower

/-- `pathlib.Path.name`: the part after the last `/`. -/
def baseName (p : List Char) : List Char :=
  (p.reverse.takeWhile (fun c => ¬ c = '/')).reverse

/-- `pathlib.Path.parent` as used in `binary_path.parent / "SHA256SUMS"`:
everything up to and including the last `/`. -/
def parentDir (p : List Char) : List Char :=
  (p.reverse.dropWhile (fun c => ¬ c = '/')).reverse

/-- Digit run of Python's `int(str)`: consumes decimal digits, allowing a
single `_` between two digits (Python's digit-group separator), with `acc`
the value read so far. -/
def digitsCore : Nat → List Char → Option Nat
  | acc, [] => some acc
  | acc, c :: rest =>
    if c.isDigit then digitsCore (10 * acc + (c.toNat - 48)) rest
    else if c = '_' then
      match rest with
      | [] => none
      | d :: rest2 =>
        if d.isDigit then digitsCore (10 * acc + (d.toNat - 48)) rest2 else none
    else none

/-- Unsigned part of Python's `int(str)`: at least one digit, then
`digitsCore`. -/
def pyDigits? : List Char → Option Nat
  | [] => none
  | c :: rest => if c.isDigit then digitsCore (c.toNat - 48) rest else none

/-- Sign handling of Python's `int(str)`, applied after stripping. -/
def pySigned (s : List Char) : Option Int :=
  match s with
  | [] => none
  | c :: rest =>
    if c = '+' then (pyDigits? rest).map (fun n => (n : Int))
    else if c = '-' then (pyDigits? rest).map (fun n => -(n : Int))
    else (pyDigits? (c :: rest)).map (fun n => (n : Int))

/-- Python's `int(str)` (ASCII fragment): strip whitespace, optional sign,
then a digit run; `none` models the `ValueError`. -/
def pyInt? (l : List Char) : Option Int := pySigned (stripBoth l)

/-- Little-endian decimal digits, with explicit fuel so that the kernel can
evaluate it (the fuel `n` itself always suffices). -/
def toDigitsRevFuel : Nat → Nat → List Nat
  | 0, n => [n % 10]
  | fuel + 1, n => if n < 10 then [n] else n % 10 :: toDigitsRevFuel fuel (n / 10)

/-- Little-endian decimal digits of a natural number. -/
def toDigitsRev (n : Nat) : List Nat := toDigitsRevFuel n n

/-- Value of a little-endian digit list. -/
def ofDigitsRev (l : List Nat) : Nat := l.foldr (fun d a => 10 * a + d) 0

/-- The decimal digit character for `d < 10`. -/
def digitChar (d : Nat) : Char :=
  match d with
  | 0 => '0' | 1 => '1' | 2 => '2' | 3 => '3' | 4 => '4'
  | 5 => '5' | 6 => '6' | 7 => '7' | 8 => '8' | 9 => '9'
  | _ => '*'

/-- Python `str(n)` for a natural number. -/
def natRepr (n : Nat) : List Char := (toDigitsRev n).reverse.map digitChar

/-- Python `str(i)` for an integer (as interpolated by f-strings). -/
def intRepr (i : Int) : List Char :=
  if i < 0 then '-' :: natRepr i.natAbs else natRepr i.natAbs

/-- `LRCBuilder.parse_version`: check the `v` prefix, split the remainder on
`.` into exactly three parts, convert each with `int`.  `none` models
`sys.exit(1)`. -/
def parse_version (version : List Char) : Option (Int × Int × Int) :=
  match version with
  | [] => none
  | c :: rest =>
    if c = 'v' then
      match pySplit '.' rest with
      | [p1, p2, p3] =>
        match pyInt? p1, pyInt? p2, pyInt? p3 with
        | some a, some b, some c2 => some (a, b, c2)
        | _, _, _ => none
      | _ => none
    else none

/-- The f-string `f"v{major}.{minor}.{patch}"` of `bump_version`. -/
def formatVersion (major minor patch : Int) : List Char :=
  'v' :: (intRepr major ++ '.' :: (intRepr minor ++ '.' :: intRepr patch))

/-- `LRCBuilder.bump_version`: parse, adjust the requested component, and
re-format.  `none` models `sys.exit(1)` (bad version or unknown kind). -/
def bump_version (current : List Char) (bump_type : String) : Option (List Char) :=
  match parse_version current with
  | none => none
  | some (major, minor, patch) =>
    if bump_type = "patch" then some (formatVersion major minor (patch + 1))
    else if bump_type = "minor" then some (formatVersion major (minor + 1) 0)
    else if bump_type = "major" then some (formatVersion (major + 1) 0 0)
    else none

/-- Strict component-precedence (lexicographic) order on version triples. -/
def versionLt (s t : Int × Int × Int) : Prop :=
  s.1 < t.1 ∨ (s.1 = t.1 ∧ (s.2.1 < t.2.1 ∨ (s.2.1 = t.2.1 ∧ s.2.2 < t.2.2)))

instance : DecidablePred (fun p : (Int × Int × Int) × (Int × Int × Int) => versionLt p.1 p.2) := by
  intro p
  unfold versionLt
  infer_instance

/-- The line test `line.strip().startswith("const appVersion")` used by both
`get_version_from_source` and `update_version_in_source`. -/
def lineMatches (line : List Char) : Bool :=
  List.isPrefixOf "const appVersion".data (stripBoth line)

/-- The replacement line written by `LRCBuilder.update_version_in_source`:
a fixed canned comment when the matched line contained `//`, no comment
otherwise. -/
def replLine (new_version line : List Char) : List Char :=
  if containsSub "//".data line then
    "const appVersion = \"".data ++ new_version
      ++ "\" // Semantic version - bump this for releases\n".data
  else
    "const appVersion = \"".data ++ new_version ++ "\"\n".data

/-- `LRCBuilder.update_version_in_source` on the list of lines of `main.go`:
replace the first line matching the declaration pattern (the loop breaks at
the first hit); `none` models the `sys.exit(1)` when no line matches. -/
def update_version_in_source (new_version : List Char) :
    List (List Char) → Option (List (List Char))
  | [] => none
  | line :: rest =>
    if lineMatches line then some (replLine new_version line :: rest)
    else (update_version_in_source new_version rest).map (fun ls => line :: ls)

/-- The scan of `LRCBuilder.get_version_from_source` over the lines of
`main.go`: on a matching line, `line.split('"')` must have at least two
parts, and the second is returned; otherwise the scan continues. -/
def findVersionLine : List (List Char) → Option (List Char)
  | [] => none
  | line :: rest =>
    if lineMatches line then
      match pySplit '"' line with
      | _ :: v :: _ => some v
      | _ => findVersionLine rest
    else findVersionLine rest

/-- The `PLATFORMS` list of the script. -/
def PLATFORMS : List (List Char × List Char) :=
  [("linux".data, "amd64".data), ("linux".data, "arm64".data),
   ("darwin".data, "amd64".data), ("darwin".data, "arm64".data),
   ("windows".data, "amd64".data)]

/-- `BUILD_OUTPUT_DIR = "dist"`. -/
def BUILD_OUTPUT_DIR : List Char := "dist".data

/-- `binary_name = "lrc.exe" if goos == "windows" else "lrc"`. -/
def binaryName (goos : List Char) : List Char :=
  if goos = "windows".data then "lrc.exe".data else "lrc".data

/-- Path layout of `LRCBuilder.build_for_platform`: it returns the pair
`(output_path, platform_dir)` with `platform_dir = f"{goos}-{goarch}"` and
`output_path = dist_dir / platform_dir / binary_name`.  The compiler
invocation itself is an external collaborator; only the naming is modelled. -/
def build_for_platform (goos goarch : List Char) : List Char × List Char :=
  let platform_dir := goos ++ "-".data ++ goarch
  let output_path := BUILD_OUTPUT_DIR ++ "/".data ++ platform_dir ++ "/".data ++ binaryName goos
  (output_path, platform_dir)

/-- `B2_UPLOAD_PATH_PREFIX = "lrc"` (the path prefix configuration constant). -/
def B2_UPLOAD_PATH : List Char := "lrc".data

/-- The destination key `f"{B2_UPLOAD_PATH_PREFIX}/{version}/{platform_dir}/{name}"`
built in `LRCBuilder.upload_to_b2`. -/
def b2Key (version platform_dir name : List Char) : List Char :=
  B2_UPLOAD_PATH ++ "/".data ++ version ++ "/".data ++ platform_dir ++ "/".data ++ name

/-- Observable events of the upload phase: obtaining a fresh upload URL
(`get_upload_url`, i.e. an upload grant) and transferring one file
(`upload_file_to_b2`, recorded with its destination key and source path). -/
inductive B2Event where
  | getUploadUrl : B2Event
  | uploadFile (key : List Char) (path : List Char) : B2Event
deriving DecidableEq

/-- The body of the per-platform loop in `LRCBuilder.upload_to_b2`: a fresh
grant then the binary upload; if the platform's `SHA256SUMS` file exists,
another fresh grant then the manifest upload. -/
def platformEvents (sumsExists : List Char → Bool) (version : List Char)
    (pf : List Char × List Char) : List B2Event :=
  let sumsPath := parentDir pf.1 ++ "SHA256SUMS".data
  [B2Event.getUploadUrl,
   B2Event.uploadFile (b2Key version pf.2 (baseName pf.1)) pf.1]
  ++ (if sumsExists sumsPath then
        [B2Event.getUploadUrl,
         B2Event.uploadFile (b2Key version pf.2 "SHA256SUMS".data) sumsPath]
      else [])

/-- The event trace of `LRCBuilder.upload_to_b2` over the built files, in
loop order.  `sumsExists` is the filesystem oracle for `sums_file.exists()`. -/
def upload_to_b2 (sumsExists : List Char → Bool) (files : List (List Char × List Char))
    (version : List Char) : List B2Event :=
  match files with
  | [] => []
  | pf :: rest => platformEvents sumsExists version pf ++ upload_to_b2 sumsExists rest version

/-- Every file transfer is immediately preceded by its own fresh grant: the
trace decomposes into grant/upload pairs and grants, so no grant is consumed
by two uploads and no upload happens without a fresh grant. -/
def uploadsFreshlyGranted : List B2Event → Bool
  | [] => true
  | B2Event.uploadFile _ _ :: _ => false
  | B2Event.getUploadUrl :: B2Event.uploadFile _ _ :: rest => uploadsFreshlyGranted rest
  | B2Event.getUploadUrl :: rest => uploadsFreshlyGranted rest

/-- Answers of the git collaborator, as `check_lrc_clean` consumes them:
exit status of `git diff --quiet`, of `git diff --cached --quiet`, and the
stdout of `git ls-files --others --exclude-standard`. -/
structure GitState where
  unstagedDirty : Bool
  stagedDirty : Bool
  untracked : List Char
deriving DecidableEq

/-- `LRCBuilder.check_lrc_clean`: false as soon as one of the three git
probes reports a change (Python truthiness of the `ls-files` output is
non-emptiness). -/
def check_lrc_clean (g : GitState) : Bool :=
  if g.unstagedDirty then false
  else if g.stagedDirty then false
  else if g.untracked.isEmpty then true
  else false

/-- The state the script can observe and mutate: the git oracle, the lines
of `main.go` (`none` when the file is missing), the contents of the `dist`
output directory (`none` when it does not exist), the current short commit
id and the list of commits made. -/
structure World where
  git : GitState
  mainGo : Option (List (List Char))
  dist : Option (List (List Char × List Char))
  commitId : List Char
  commits : List (List Char)
deriving DecidableEq

/-- `LRCBuilder.get_version_from_source` on a `World`. -/
def get_version_from_source (w : World) : Option (List Char) :=
  match w.mainGo with
  | none => none
  | some lines => findVersionLine lines

/-- Failure exits of `cmd_build` (`sys.exit(1)` sites before any build step). -/
inductive BuildErr where
  | dirtyTree : BuildErr
  | versionNotFound : BuildErr
deriving DecidableEq

/-- `LRCBuilder.cmd_build` as a state transformer: the clean-tree check runs
first and exits before anything else; only then is the version read and the
`dist` directory replaced by the freshly built artifacts (the Go compiler
being the opaque collaborator, its artifacts are the path pairs). -/
def cmd_build (w : World) :
    Except BuildErr (List Char × List (List Char × List Char)) × World :=
  if check_lrc_clean w.git = false then (Except.error BuildErr.dirtyTree, w)
  else
    match get_version_from_source w with
    | none => (Except.error BuildErr.versionNotFound, w)
    | some version =>
      let files := PLATFORMS.map (fun p => build_for_platform p.1 p.2)
      (Except.ok (version, files), { w with dist := some files })

/-- Outcomes of `cmd_bump`: the `sys.exit(1)` sites, the silent abort on a
declined confirmation, and the successful commit. -/
inductive BumpOutcome where
  | dirtyTree : BumpOutcome
  | versionNotFound : BumpOutcome
  | formatError : BumpOutcome
  | aborted : BumpOutcome
  | updateFailed : BumpOutcome
  | committed (newVersion : List Char) : BumpOutcome
deriving DecidableEq

/-- `LRCBuilder.cmd_bump` as a state transformer.  The interactive loop only
terminates with a valid bump kind, modelled by the `bump_type` argument; the
confirmation answer is the raw input, processed with `.strip().lower()` as in
the script.  On success `main.go` is rewritten and the bump commit recorded
(`git add` / the attestation step are opaque collaborators assumed to
succeed). -/
def cmd_bump (w : World) (bump_type : String) (confirmInput : List Char) :
    BumpOutcome × World :=
  if check_lrc_clean w.git = false then (BumpOutcome.dirtyTree, w)
  else
    match get_version_from_source w with
    | none => (BumpOutcome.versionNotFound, w)
    | some current =>
      match bump_version current bump_type with
      | none => (BumpOutcome.formatError, w)
      | some newVersion =>
        if pyLower (stripBoth confirmInput) = "y".data then
          match w.mainGo with
          | none => (BumpOutcome.updateFailed, w)
          | some lines =>
            match update_version_in_source newVersion lines with
            | none => (BumpOutcome.updateFailed, w)
            | some lines2 =>
              (BumpOutcome.committed newVersion,
               { w with
                  mainGo := some lines2,
                  commits := w.commits
                    ++ ["lrc: bump version ".data ++ current ++ " → ".data ++ newVersion] })
        else (BumpOutcome.aborted, w)

example : parse_version "v1.2.3".data = some (1, 2, 3) := by decide
example : parse_version "1.2.3".data = none := by decide
example : parse_version "v1.2".data = none := by decide
example : parse_version "v1.2.x".data = none := by decide
example : parse_version "v-1.2.3".data = some (-1, 2, 3) := by decide
example : parse_version "v+1. 2.3".data = some (1, 2, 3) := by decide
example : bump_version "v1.2.3".data "minor" = some "v1.3.0".data := by decide
example : bump_version "v1.2.3".data "patch" = some "v1.2.4".data := by decide
example : bump_version "v1.2.3".data "major" = some "v2.0.0".data := by decide
example : pyInt? "1_0".data = some 10 := by decide
example : pyInt? "1__0".data = none := by decide
example : pyInt? "_1".data = none := by decide
example : pyInt? " 42 ".data = some 42 := by decide

/-! ### Auxiliary lemmas about the string and integer models -/

theorem dropWhile_eq_self_of (p : Char → Bool) (l : List Char)
    (h : ∀ c ∈ l, p c = false) : List.dropWhile p l = l := by
  cases l with
  | nil => rfl
  | cons c r =>
    rw [List.dropWhile_cons]
    simp [h c (List.mem_cons_self c r)]

theorem stripBoth_eq_self (l : List Char) (h : ∀ c ∈ l, pyIsSpace c = false) :
    stripBoth l = l := by
  unfold stripBoth
  rw [dropWhile_eq_self_of _ _ h,
    dropWhile_eq_self_of _ _ (fun c hc => h c (List.mem_reverse.mp hc)),
    List.reverse_reverse]

theorem digitsCore_digits (l : List Char) : ∀ acc : Nat, (∀ c ∈ l, c.isDigit = true) →
    digitsCore acc l = some (l.foldl (fun a c => 10 * a + (c.toNat - 48)) acc) := by
  induction l with
  | nil => intro acc _; rfl
  | cons c r ih =>
    intro acc h
    have hc : c.isDigit = true := h c (List.mem_cons_self c r)
    rw [digitsCore.eq_def]
    simp only []
    rw [if_pos hc, List.foldl_cons]
    exact ih _ (fun x hx => h x (List.mem_cons_of_mem c hx))

theorem pyDigits_eq_foldl (l : List Char) (hne : l ≠ [])
    (h : ∀ c ∈ l, c.isDigit = true) :
    pyDigits? l = some (l.foldl (fun a c => 10 * a + (c.toNat - 48)) 0) := by
  cases l with
  | nil => exact absurd rfl hne
  | cons c r =>
    have hc : c.isDigit = true := h c (List.mem_cons_self c r)
    simp only [pyDigits?, hc, if_true, List.foldl_cons]
    rw [digitsCore_digits r _ (fun x hx => h x (List.mem_cons_of_mem c hx))]
    simp

theorem toDigitsRevFuel_mem (fuel : Nat) : ∀ n, n ≤ fuel →
    ∀ d ∈ toDigitsRevFuel fuel n, d < 10 := by
  induction fuel with
  | zero =>
    intro n _ d hd
    simp [toDigitsRevFuel] at hd
    omega
  | succ fuel ih =>
    intro n hn d hd
    by_cases h10 : n < 10
    · simp [toDigitsRevFuel, h10] at hd
      omega
    · simp [toDigitsRevFuel, h10] at hd
      rcases hd with hd | hd
      · omega
      · exact ih (n / 10) (by omega) d hd

theorem toDigitsRevFuel_ne_nil (fuel n : Nat) : toDigitsRevFuel fuel n ≠ [] := by
  cases fuel with
  | zero => simp [toDigitsRevFuel]
  | succ fuel => by_cases h10 : n < 10 <;> simp [toDigitsRevFuel, h10]

theorem ofDigitsRev_toDigitsRevFuel (fuel : Nat) : ∀ n, n ≤ fuel →
    ofDigitsRev (toDigitsRevFuel fuel n) = n := by
  induction fuel with
  | zero =>
    intro n hn
    have : n = 0 := by omega
    subst this
    rfl
  | succ fuel ih =>
    intro n hn
    by_cases h10 : n < 10
    · simp [toDigitsRevFuel, h10, ofDigitsRev]
    · have hrec := ih (n / 10) (by omega)
      simp only [toDigitsRevFuel, if_neg h10]
      show 10 * ofDigitsRev (toDigitsRevFuel fuel (n / 10)) + n % 10 = n
      rw [hrec]
      omega

theorem toDigitsRev_mem (n : Nat) : ∀ d ∈ toDigitsRev n, d < 10 :=
  toDigitsRevFuel_mem n n (Nat.le_refl n)

theorem toDigitsRev_ne_nil (n : Nat) : toDigitsRev n ≠ [] :=
  toDigitsRevFuel_ne_nil n n

theorem ofDigitsRev_toDigitsRev (n : Nat) : ofDigitsRev (toDigitsRev n) = n :=
  ofDigitsRev_toDigitsRevFuel n n (Nat.le_refl n)

theorem digitChar_isDigit {d : Nat} (h : d < 10) : (digitChar d).isDigit = true := by
  interval_cases d <;> rfl

theorem digitChar_toNat {d : Nat} (h : d < 10) : (digitChar d).toNat - 48 = d := by
  interval_cases d <;> rfl

theorem digitChar_not (c : Char) {d : Nat} (h : d < 10) (hc : c.isDigit = false) :
    ¬ digitChar d = c := by
  intro he
  have hd := digitChar_isDigit h
  rw [he, hc] at hd
  exact absurd hd (by decide)

theorem isDigit_not_space (c : Char) (h : c.isDigit = true) : pyIsSpace c = false := by
  cases hps : pyIsSpace c
  · rfl
  · unfold pyIsSpace at hps
    simp only [Bool.or_eq_true, decide_eq_true_eq] at hps
    rcases hps with ((((h1 | h1) | h1) | h1) | h1) | h1 <;> subst h1 <;>
      exact absurd h (by decide)

theorem natRepr_all_digits (n : Nat) : ∀ c ∈ natRepr n, c.isDigit = true := by
  intro c hc
  unfold natRepr at hc
  rw [List.mem_map] at hc
  obtain ⟨d, hd, rfl⟩ := hc
  exact digitChar_isDigit (toDigitsRev_mem n d (List.mem_reverse.mp hd))

theorem natRepr_shape (n : Nat) :
    ∃ (d : Nat) (t : List Nat), d < 10 ∧ natRepr n = digitChar d :: t.map digitChar := by
  unfold natRepr
  cases hrev : (toDigitsRev n).reverse with
  | nil => exact absurd (List.reverse_eq_nil_iff.mp hrev) (toDigitsRev_ne_nil n)
  | cons d t =>
    have hd : d ∈ (toDigitsRev n).reverse := by
      rw [hrev]; exact List.mem_cons_self d t
    exact ⟨d, t, toDigitsRev_mem n d (List.mem_reverse.mp hd), rfl⟩

theorem foldl_map_digitChar (l : List Nat) (h : ∀ d ∈ l, d < 10) : ∀ a : Nat,
    (l.map digitChar).foldl (fun a c => 10 * a + (c.toNat - 48)) a
      = l.foldl (fun a d => 10 * a + d) a := by
  induction l with
  | nil => intro a; rfl
  | cons d t ih =>
    intro a
    simp only [List.map_cons, List.foldl_cons]
    rw [digitChar_toNat (h d (List.mem_cons_self d t))]
    exact ih (fun e he => h e (List.mem_cons_of_mem d he)) _

theorem foldl_natRepr (n : Nat) :
    (natRepr n).foldl (fun a c => 10 * a + (c.toNat - 48)) 0 = n := by
  unfold natRepr
  rw [foldl_map_digitChar _ (fun d hd => toDigitsRev_mem n d (List.mem_reverse.mp hd))]
  rw [List.foldl_reverse]
  exact ofDigitsRev_toDigitsRev n

theorem natRepr_ne_nil (n : Nat) : natRepr n ≠ [] := by
  unfold natRepr
  simp [toDigitsRev_ne_nil n]

theorem pyDigits_natRepr (n : Nat) : pyDigits? (natRepr n) = some n := by
  rw [pyDigits_eq_foldl _ (natRepr_ne_nil n) (natRepr_all_digits n), foldl_natRepr n]

theorem intRepr_chars (i : Int) :
    ∀ c ∈ intRepr i, c = '-' ∨ c.isDigit = true := by
  intro c hc
  unfold intRepr at hc
  by_cases hi : i < 0
  · rw [if_pos hi] at hc
    rcases List.mem_cons.mp hc with h | h
    · exact Or.inl h
    · exact Or.inr (natRepr_all_digits _ c h)
  · rw [if_neg hi] at hc
    exact Or.inr (natRepr_all_digits _ c hc)

theorem intRepr_no_space (i : Int) : ∀ c ∈ intRepr i, pyIsSpace c = false := by
  intro c hc
  rcases intRepr_chars i c hc with rfl | hd
  · rfl
  · exact isDigit_not_space c hd

theorem intRepr_no_dot (i : Int) : ∀ c ∈ intRepr i, ¬ c = '.' := by
  intro c hc he
  rcases intRepr_chars i c hc with h | h
  · rw [he] at h; exact absurd h (by decide)
  · rw [he] at h; exact absurd h (by decide)

theorem pyInt_intRepr (i : Int) : pyInt? (intRepr i) = some i := by
  unfold pyInt?
  rw [stripBoth_eq_self _ (intRepr_no_space i)]
  by_cases hi : i < 0
  · unfold intRepr
    rw [if_pos hi]
    simp only [pySigned]
    simp only [if_true, pyDigits_natRepr, Option.map_some']
    refine congrArg some ?_
    show -(i.natAbs : Int) = i
    omega
  · obtain ⟨d, t, hd, hshape⟩ := natRepr_shape i.natAbs
    unfold intRepr
    rw [if_neg hi, hshape]
    simp only [pySigned]
    rw [if_neg (digitChar_not '+' hd (by decide)), if_neg (digitChar_not '-' hd (by decide))]
    rw [← hshape, pyDigits_natRepr]
    refine congrArg some ?_
    show ((i.natAbs : Nat) : Int) = i
    omega

theorem pySplit_no_sep (sep : Char) (l : List Char) (h : ∀ c ∈ l, ¬ c = sep) :
    pySplit sep l = [l] := by
  induction l with
  | nil => rfl
  | cons c r ih =>
    have hc : ¬ c = sep := h c (List.mem_cons_self c r)
    simp only [pySplit]
    rw [if_neg hc, ih (fun x hx => h x (List.mem_cons_of_mem c hx))]

theorem pySplit_append (sep : Char) (x y : List Char) (h : ∀ c ∈ x, ¬ c = sep) :
    pySplit sep (x ++ sep :: y) = x :: pySplit sep y := by
  induction x with
  | nil => simp [pySplit]
  | cons c r ih =>
    have hc : ¬ c = sep := h c (List.mem_cons_self c r)
    simp only [List.cons_append, pySplit, List.append_eq]
    rw [if_neg hc, ih (fun a ha => h a (List.mem_cons_of_mem c ha))]

theorem parse_format (a b c : Int) :
    parse_version (formatVersion a b c) = some (a, b, c) := by
  unfold formatVersion
  simp only [parse_version, if_true]
  rw [pySplit_append '.' (intRepr a) _ (intRepr_no_dot a)]
  rw [pySplit_append '.' (intRepr b) _ (intRepr_no_dot b)]
  rw [pySplit_no_sep '.' (intRepr c) (intRepr_no_dot c)]
  simp [pyInt_intRepr]

/-! ### Auxiliary lemmas about the upload trace -/

theorem upload_keys_aux (sumsExists : List Char → Bool) (version k sp : List Char) :
    ∀ files : List (List Char × List Char),
      B2Event.uploadFile k sp ∈ upload_to_b2 sumsExists files version →
      ∃ pf, pf ∈ files ∧
        (k = b2Key version pf.2 (baseName pf.1) ∨ k = b2Key version pf.2 "SHA256SUMS".data) := by
  intro files
  induction files with
  | nil => intro h; simp [upload_to_b2] at h
  | cons q rest ih =>
    intro h
    simp only [upload_to_b2] at h
    rw [List.mem_append] at h
    rcases h with h | h
    · simp only [platformEvents] at h
      by_cases hs : sumsExists (parentDir q.1 ++ "SHA256SUMS".data)
      · rw [if_pos hs] at h
        simp only [List.cons_append, List.nil_append, List.mem_cons, List.not_mem_nil,
          or_false] at h
        rcases h with h | h | h | h
        · exact absurd h (by simp)
        · exact ⟨q, List.mem_cons_self q rest, Or.inl (B2Event.uploadFile.injEq .. ▸ h).1⟩
        · exact absurd h (by simp)
        · exact ⟨q, List.mem_cons_self q rest, Or.inr (B2Event.uploadFile.injEq .. ▸ h).1⟩
      · rw [if_neg hs] at h
        simp only [List.append_nil, List.mem_cons, List.not_mem_nil, or_false] at h
        rcases h with h | h
        · exact absurd h (by simp)
        · exact ⟨q, List.mem_cons_self q rest, Or.inl (B2Event.uploadFile.injEq .. ▸ h).1⟩
    · obtain ⟨pf, hmem, hor⟩ := ih h
      exact ⟨pf, List.mem_cons_of_mem q hmem, hor⟩

theorem uploadsFreshlyGranted_upload_to_b2 (sumsExists : List Char → Bool)
    (version : List Char) : ∀ files,
    uploadsFreshlyGranted (upload_to_b2 sumsExists files version) = true := by
  intro files
  induction files with
  | nil => rfl
  | cons q rest ih =>
    simp only [upload_to_b2, platformEvents]
    by_cases hs : sumsExists (parentDir q.1 ++ "SHA256SUMS".data)
    · rw [if_pos hs]
      simp only [List.cons_append, List.nil_append]
      exact ih
    · rw [if_neg hs]
      simp only [List.append_nil, List.cons_append, List.nil_append]
      exact ih

theorem upload_bin_before_sums (sumsExists : List Char → Bool) (version : List Char) :
    ∀ files (pf : List Char × List Char), pf ∈ files →
    sumsExists (parentDir pf.1 ++ "SHA256SUMS".data) = true →
    List.Sublist
      [B2Event.uploadFile (b2Key version pf.2 (baseName pf.1)) pf.1,
       B2Event.uploadFile (b2Key version pf.2 "SHA256SUMS".data)
         (parentDir pf.1 ++ "SHA256SUMS".data)]
      (upload_to_b2 sumsExists files version) := by
  intro files
  induction files with
  | nil => intro pf h; exact absurd h (List.not_mem_nil pf)
  | cons q rest ih =>
    intro pf hmem hs
    simp only [upload_to_b2]
    rcases List.mem_cons.mp hmem with rfl | hmem2
    · refine List.Sublist.trans ?_ (List.sublist_append_left _ _)
      simp only [platformEvents]
      rw [if_pos hs]
      simp only [List.cons_append, List.nil_append]
      exact List.Sublist.cons _ (List.Sublist.cons₂ _
        (List.Sublist.cons _ (List.Sublist.cons₂ _ (List.nil_sublist _))))
    · exact List.Sublist.trans (ih pf hmem2 hs) (List.sublist_append_right _ _)

/-! ### The claims -/

/-- Claim C1: for every version string `v<major>.<minor>.<patch>` with integer
components, `bump_version` with kind `patch` increments only the patch
component; kind `minor` increments minor and resets patch to zero; kind
`major` increments major and resets minor and patch to zero; in particular
bumping `v1.2.3` with kind `minor` yields `v1.3.0`. -/
theorem bump_version_components (a b c : Int) :
    bump_version (formatVersion a b c) "patch" = some (formatVersion a b (c + 1)) ∧
    bump_version (formatVersion a b c) "minor" = some (formatVersion a (b + 1) 0) ∧
    bump_version (formatVersion a b c) "major" = some (formatVersion (a + 1) 0 0) ∧
    bump_version "v1.2.3".data "minor" = some "v1.3.0".data := by
  refine ⟨?_, ?_, ?_, by decide⟩ <;>
    (unfold bump_version; rw [parse_format]) <;> simp

/-- Claim C5: for every version text that `parse_version` accepts, formatting
the parsed triple back as `v<major>.<minor>.<patch>` and parsing again yields
the same result as parsing the original text (round-trip). -/
theorem parse_format_parse_roundtrip (l : List Char) (a b c : Int)
    (h : parse_version l = some (a, b, c)) :
    parse_version (formatVersion a b c) = parse_version l := by
  rw [h, parse_format]

/-- Witness for the C5 round-trip at the concrete input `"v1.2.3"`. -/
theorem parse_format_parse_roundtrip_witness :
    parse_version (formatVersion 1 2 3) = parse_version "v1.2.3".data :=
  parse_format_parse_roundtrip "v1.2.3".data 1 2 3 (by decide)

/-- Claim C6: `parse_version` fails on `"1.2.3"` (missing `v` prefix), on
`"v1.2"` (wrong number of components) and on `"v1.2.x"` (non-integer
component), and in general fails on every input that misses the `v` prefix,
whose remainder does not split into exactly three dot-separated components,
or one of whose components is rejected by Python's `int`. -/
theorem parse_version_rejects_malformed (l : List Char)
    (h : l.head? ≠ some 'v'
       ∨ (∃ rest, l = 'v' :: rest ∧ (pySplit '.' rest).length ≠ 3)
       ∨ (∃ rest p, l = 'v' :: rest ∧ p ∈ pySplit '.' rest ∧ pyInt? p = none)) :
    parse_version l = none ∧
    parse_version "1.2.3".data = none ∧
    parse_version "v1.2".data = none ∧
    parse_version "v1.2.x".data = none := by
  refine ⟨?_, by decide, by decide, by decide⟩
  rcases h with h | ⟨rest, rfl, hlen⟩ | ⟨rest, p, rfl, hp, hnone⟩
  · cases l with
    | nil => rfl
    | cons c r =>
      have hc : ¬ c = 'v' := fun he => h (by rw [he]; rfl)
      simp only [parse_version]
      rw [if_neg hc]
  · simp only [parse_version, if_true]
    cases hq : pySplit '.' rest with
    | nil => rfl
    | cons p1 t1 =>
      cases t1 with
      | nil => rfl
      | cons p2 t2 =>
        cases t2 with
        | nil => rfl
        | cons p3 t3 =>
          cases t3 with
          | cons p4 t4 => rfl
          | nil => exact absurd (by rw [hq]; rfl) hlen
  · simp only [parse_version, if_true]
    cases hq : pySplit '.' rest with
    | nil => rfl
    | cons p1 t1 =>
      cases t1 with
      | nil => rfl
      | cons p2 t2 =>
        cases t2 with
        | nil => rfl
        | cons p3 t3 =>
          cases t3 with
          | cons p4 t4 => rfl
          | nil =>
            rw [hq] at hp
            simp only [List.mem_cons, List.not_mem_nil, or_false] at hp
            rcases hp with rfl | rfl | rfl
            · simp only []
              rw [hnone]
            · simp only []
              rw [hnone]
              cases pyInt? p1 <;> cases pyInt? p3 <;> rfl
            · simp only []
              rw [hnone]
              cases pyInt? p1 <;> cases pyInt? p2 <;> rfl

/-- Witness for C6, applying the theorem at the concrete input `"1.2.3"`. -/
theorem parse_version_rejects_malformed_witness :
    parse_version "1.2.3".data = none ∧
    parse_version "1.2.3".data = none ∧
    parse_version "v1.2".data = none ∧
    parse_version "v1.2.x".data = none :=
  parse_version_rejects_malformed "1.2.3".data (Or.inl (by decide))

/-- Counterexample to claim C7: the claim asserts `parse_version` fails on
every input with a negative or non-canonical component, naming `"v-1.2.3"`;
the code accepts `"v-1.2.3"` and returns the triple `(-1, 2, 3)`, whose first
component is negative. -/
theorem parse_version_accepts_negative :
    parse_version "v-1.2.3".data = some (-1, 2, 3) ∧
    ¬ parse_version "v-1.2.3".data = none ∧ (-1 : Int) < 0 := by decide

/-- Claim C7 as amended: `parse_version` puts no canonicity or sign
restriction on components beyond what Python's `int` conversion accepts, so
non-canonical inputs are accepted: `"v-1.2.3"` parses to `(-1, 2, 3)` and
`"v+1. 2.3"` parses to `(1, 2, 3)`; canonical texts `v<a>.<b>.<c>` parse to
their components. -/
theorem parse_version_int_components (a b c : Int) :
    parse_version "v-1.2.3".data = some (-1, 2, 3) ∧
    parse_version "v+1. 2.3".data = some (1, 2, 3) ∧
    parse_version (formatVersion a b c) = some (a, b, c) :=
  ⟨by decide, by decide, parse_format a b c⟩

/-- Claim C10: for every version string accepted by `parse_version` and every
kind among `patch`, `minor`, `major`, the bumped version parses to a triple
that is strictly greater than the input triple in the component-precedence
(lexicographic) order. -/
theorem bump_version_strict_increase (l : List Char) (t : Int × Int × Int) (k : String)
    (hp : parse_version l = some t)
    (hk : k = "patch" ∨ k = "minor" ∨ k = "major") :
    ∃ l2 t2, bump_version l k = some l2 ∧ parse_version l2 = some t2 ∧ versionLt t t2 := by
  obtain ⟨a, b, c⟩ := t
  unfold bump_version
  rw [hp]
  simp only []
  rcases hk with rfl | rfl | rfl
  · refine ⟨formatVersion a b (c + 1), (a, b, c + 1), ?_, parse_format a b (c + 1), ?_⟩
    · rw [if_pos rfl]
    · exact Or.inr ⟨rfl, Or.inr ⟨rfl, by show c < c + 1; omega⟩⟩
  · refine ⟨formatVersion a (b + 1) 0, (a, b + 1, 0), ?_, parse_format a (b + 1) 0, ?_⟩
    · rw [if_neg (by decide), if_pos rfl]
    · exact Or.inr ⟨rfl, Or.inl (by show b < b + 1; omega)⟩
  · refine ⟨formatVersion (a + 1) 0 0, (a + 1, 0, 0), ?_, parse_format (a + 1) 0 0, ?_⟩
    · rw [if_neg (by decide), if_neg (by decide), if_pos rfl]
    · exact Or.inl (by show a < a + 1; omega)

/-- Witness for C10 at the concrete input `"v1.2.3"` with kind `patch`. -/
theorem bump_version_strict_increase_witness :
    ∃ l2 t2, bump_version "v1.2.3".data "patch" = some l2 ∧
      parse_version l2 = some t2 ∧ versionLt (1, 2, 3) t2 :=
  bump_version_strict_increase "v1.2.3".data (1, 2, 3) "patch" (by decide) (Or.inl rfl)

/-- Counterexample to claim C2: the claim asserts the trailing inline comment
of the matched declaration line is preserved verbatim; on a line carrying the
comment `// keep this note`, `update_version_in_source` emits the fixed
canned comment instead, and the original comment text is gone from the
rewritten file. -/
theorem update_version_in_source_drops_comment :
    update_version_in_source "v2.0.0".data
        ["const appVersion = \"v1.0.0\" // keep this note\n".data]
      = some ["const appVersion = \"v2.0.0\" // Semantic version - bump this for releases\n".data]
    ∧ containsSub "keep this note".data
        "const appVersion = \"v1.0.0\" // keep this note\n".data = true
    ∧ containsSub "keep this note".data
        "const appVersion = \"v2.0.0\" // Semantic version - bump this for releases\n".data
        = false := by decide

/-- Claim C2 as amended: for every file whose lines before the first matched
declaration line do not match, `update_version_in_source` rewrites exactly
that first matched line — every other line is returned unchanged — replacing
it wholly by `replLine`, i.e. by a canonical declaration carrying the fixed
comment `// Semantic version - bump this for releases` when the original line
contained `//` and no comment otherwise (the original trailing comment is not
preserved). -/
theorem update_version_in_source_frame (pre post : List (List Char)) (line v : List Char)
    (hpre : ∀ l ∈ pre, lineMatches l = false) (hl : lineMatches line = true) :
    update_version_in_source v (pre ++ line :: post)
      = some (pre ++ replLine v line :: post) := by
  induction pre with
  | nil =>
    simp only [List.nil_append]
    rw [update_version_in_source.eq_def]
    simp only []
    rw [if_pos hl]
  | cons p pre2 ih =>
    have hp : lineMatches p = false := hpre p (List.mem_cons_self p pre2)
    simp only [List.cons_append]
    rw [update_version_in_source.eq_def]
    simp only []
    rw [if_neg (by simp [hp]), ih (fun x hx => hpre x (List.mem_cons_of_mem p hx))]
    rfl

/-- Witness for the amended C2 on a one-line file. -/
theorem update_version_in_source_frame_witness :
    update_version_in_source "v1.1.0".data
        ([] ++ "const appVersion = \"v1.0.0\"\n".data :: [])
      = some ([] ++ replLine "v1.1.0".data "const appVersion = \"v1.0.0\"\n".data :: []) :=
  update_version_in_source_frame [] [] "const appVersion = \"v1.0.0\"\n".data
    "v1.1.0".data (by simp) (by decide)

/-- Claim C3: whenever the working tree is dirty — an unstaged change, a
staged-uncommitted change, or at least one untracked file — both `cmd_build`
and `cmd_bump` fail with the dirty-tree error and leave the world unchanged:
no artifact is produced, no commit is made, and the output directory is
neither created, cleaned nor otherwise modified. -/
theorem dirty_tree_aborts (w : World) (bt : String) (ci : List Char)
    (h : w.git.unstagedDirty = true ∨ w.git.stagedDirty = true ∨ w.git.untracked ≠ []) :
    cmd_build w = (Except.error BuildErr.dirtyTree, w) ∧
    cmd_bump w bt ci = (BumpOutcome.dirtyTree, w) ∧
    (cmd_build w).2.dist = w.dist ∧
    (cmd_bump w bt ci).2.dist = w.dist ∧
    (cmd_bump w bt ci).2.commits = w.commits := by
  have hc : check_lrc_clean w.git = false := by
    rcases h with h | h | h
    · simp [check_lrc_clean, h]
    · simp [check_lrc_clean, h]
    · have hni : w.git.untracked.isEmpty = false := by
        cases hcase : w.git.untracked with
        | nil => exact absurd hcase h
        | cons x xs => rfl
      simp [check_lrc_clean, hni]
  refine ⟨?_, ?_, ?_, ?_, ?_⟩ <;> simp [cmd_build, cmd_bump, hc]

/-- Witness for C3 on a concrete world holding one untracked file. -/
theorem dirty_tree_aborts_witness :
    cmd_build ⟨⟨false, false, "a".data⟩, some [], none, [], []⟩
        = (Except.error BuildErr.dirtyTree, ⟨⟨false, false, "a".data⟩, some [], none, [], []⟩) ∧
    cmd_bump ⟨⟨false, false, "a".data⟩, some [], none, [], []⟩ "patch" "y".data
        = (BumpOutcome.dirtyTree, ⟨⟨false, false, "a".data⟩, some [], none, [], []⟩) ∧
    (cmd_build ⟨⟨false, false, "a".data⟩, some [], none, [], []⟩).2.dist
        = (⟨⟨false, false, "a".data⟩, some [], none, [], []⟩ : World).dist ∧
    (cmd_bump ⟨⟨false, false, "a".data⟩, some [], none, [], []⟩ "patch" "y".data).2.dist
        = (⟨⟨false, false, "a".data⟩, some [], none, [], []⟩ : World).dist ∧
    (cmd_bump ⟨⟨false, false, "a".data⟩, some [], none, [], []⟩ "patch" "y".data).2.commits
        = (⟨⟨false, false, "a".data⟩, some [], none, [], []⟩ : World).commits :=
  dirty_tree_aborts ⟨⟨false, false, "a".data⟩, some [], none, [], []⟩ "patch" "y".data
    (Or.inr (Or.inr (by decide)))

/-- Claim C4: every file transferred by the upload phase goes to a
destination key of the form `<path-prefix>/<version>/<platform-dir>/<file-name>`
(either the platform binary's name or `SHA256SUMS`), and in particular the
key for version `v1.0.0`, platform `linux-amd64` and file `lrc` is exactly
`lrc/v1.0.0/linux-amd64/lrc`. -/
theorem upload_destination_keys (sumsExists : List Char → Bool)
    (files : List (List Char × List Char)) (version k sp : List Char)
    (h : B2Event.uploadFile k sp ∈ upload_to_b2 sumsExists files version) :
    (∃ pf, pf ∈ files ∧
      (k = b2Key version pf.2 (baseName pf.1) ∨ k = b2Key version pf.2 "SHA256SUMS".data)) ∧
    b2Key "v1.0.0".data "linux-amd64".data "lrc".data = "lrc/v1.0.0/linux-amd64/lrc".data :=
  ⟨upload_keys_aux sumsExists version k sp files h, by decide⟩

/-- Witness for C4 at a concrete one-platform upload. -/
theorem upload_destination_keys_witness :
    (∃ pf, pf ∈ [("dist/linux-amd64/lrc".data, "linux-amd64".data)] ∧
      (b2Key "v1.0.0".data "linux-amd64".data "lrc".data
          = b2Key "v1.0.0".data pf.2 (baseName pf.1)
        ∨ b2Key "v1.0.0".data "linux-amd64".data "lrc".data
          = b2Key "v1.0.0".data pf.2 "SHA256SUMS".data)) ∧
    b2Key "v1.0.0".data "linux-amd64".data "lrc".data = "lrc/v1.0.0/linux-amd64/lrc".data :=
  upload_destination_keys (fun _ => true)
    [("dist/linux-amd64/lrc".data, "linux-amd64".data)] "v1.0.0".data
    (b2Key "v1.0.0".data "linux-amd64".data "lrc".data) "dist/linux-amd64/lrc".data
    (by decide)

/-- Claim C8: for every build target the output binary path is
`<outdir>/<os>-<arch>/<binary-name>`, and the `.exe` suffix is appended to
the binary name exactly when the target operating system is `windows`. -/
theorem build_output_path_layout (goos goarch : List Char) :
    (build_for_platform goos goarch).1
        = BUILD_OUTPUT_DIR ++ "/".data ++ (goos ++ "-".data ++ goarch) ++ "/".data
          ++ binaryName goos ∧
    (binaryName goos = "lrc".data ++ ".exe".data ↔ goos = "windows".data) ∧
    (build_for_platform "windows".data "amd64".data).1 = "dist/windows-amd64/lrc.exe".data ∧
    (build_for_platform "linux".data "arm64".data).1 = "dist/linux-arm64/lrc".data := by
  refine ⟨rfl, ?_, by decide, by decide⟩
  unfold binaryName
  by_cases hw : goos = "windows".data
  · rw [if_pos hw]
    simp [hw]
  · rw [if_neg hw]
    constructor
    · intro he
      exact absurd he (by decide)
    · intro he
      exact absurd he hw

/-- Claim C9: in the upload phase, every single file transfer is immediately
preceded by its own freshly obtained upload grant (no grant serves two
files), and for every platform whose checksum manifest exists, the binary
upload occurs in the trace before that platform's `SHA256SUMS` upload —
never the other way round. -/
theorem upload_grants_fresh_and_ordered (sumsExists : List Char → Bool)
    (files : List (List Char × List Char)) (version : List Char)
    (pf : List Char × List Char) (hmem : pf ∈ files)
    (hs : sumsExists (parentDir pf.1 ++ "SHA256SUMS".data) = true) :
    uploadsFreshlyGranted (upload_to_b2 sumsExists files version) = true ∧
    List.Sublist
      [B2Event.uploadFile (b2Key version pf.2 (baseName pf.1)) pf.1,
       B2Event.uploadFile (b2Key version pf.2 "SHA256SUMS".data)
         (parentDir pf.1 ++ "SHA256SUMS".data)]
      (upload_to_b2 sumsExists files version) :=
  ⟨uploadsFreshlyGranted_upload_to_b2 sumsExists version files,
   upload_bin_before_sums sumsExists version files pf hmem hs⟩

/-- Witness for C9 at a concrete one-platform upload. -/
theorem upload_grants_fresh_and_ordered_witness :
    uploadsFreshlyGranted (upload_to_b2 (fun _ => true)
        [("dist/linux-amd64/lrc".data, "linux-amd64".data)] "v1.0.0".data) = true ∧
    List.Sublist
      [B2Event.uploadFile
         (b2Key "v1.0.0".data "linux-amd64".data
           (baseName "dist/linux-amd64/lrc".data)) "dist/linux-amd64/lrc".data,
       B2Event.uploadFile (b2Key "v1.0.0".data "linux-amd64".data "SHA256SUMS".data)
         (parentDir "dist/linux-amd64/lrc".data ++ "SHA256SUMS".data)]
      (upload_to_b2 (fun _ => true)
        [("dist/linux-amd64/lrc".data, "linux-amd64".data)] "v1.0.0".data) :=
  upload_grants_fresh_and_ordered (fun _ => true)
    [("dist/linux-amd64/lrc".data, "linux-amd64".data)] "v1.0.0".data
    ("dist/linux-amd64/lrc".data, "linux-amd64".data) (by decide) rfl

end LrcBuild
